import Mathlib

/-
Verification of the rocket-landing terminal animation (rocket-1.py).

Modelling conventions:
* Python floats are modelled as exact rationals (ℚ).
* Vectors (position, velocity, acceleration, thrust, target) are Python
  lists, modelled as `List ℚ`; indexing `l[i]` which can raise IndexError
  is modelled with `l[i]?` inside the `Option` monad, and a computation
  that would raise an uncaught Python exception returns `none`.
* Python's `zip` truncates to the shortest list, as does `List.zip`.
* `random.randint` / `random.uniform` / `random.choice` draws are modelled
  by explicit oracle arguments; the validity predicates record exactly the
  ranges the library guarantees for those draws.
* `int(x)` in Python truncates toward zero; `x % n` for `n > 0` is the
  nonnegative remainder, which matches `Int.emod` for positive modulus.
-/

namespace Rocket1

/-- Axis indices, as in the source: `X = 0`, `Y = 1`. -/
def X : Nat := 0

/-- Vertical axis index. -/
def Y : Nat := 1

/-- Gravity constant `G = -9.81` from the source. -/
def G : ℚ := -981/100

/-- `verlet(p, v, dt, a)` from the source:
`p_new = p + v*dt + a(p)*dt**2/2`, `v_new = v + (a(p) + a(p_new))/2 * dt`. -/
def verlet (p v dt : ℚ) (a : ℚ → ℚ) : ℚ × ℚ :=
  let p_new := p + v * dt + a p * dt ^ 2 / 2
  let v_new := v + (a p + a p_new) / 2 * dt
  (p_new, v_new)

/-- `homemade(p, v, dt, a)` from the source:
`dv = a(p)*dt`, `v_new = v + dv`, `v_ave = (v + v_new)/2`, `p_new = p + v_ave*dt`. -/
def homemade (p v dt : ℚ) (a : ℚ → ℚ) : ℚ × ℚ :=
  let dv := a p * dt
  let v_new := v + dv
  let v_ave := (v + v_new) / 2
  let dp := v_ave * dt
  let p_new := p + dp
  (p_new, v_new)

/-- Python `int(x)`: truncation toward zero. -/
def intTrunc (q : ℚ) : ℤ :=
  if 0 ≤ q then ⌊q⌋ else ⌈q⌉

/-- `sprite.clip(win, pos)` from the source.  `win.getmaxyx()` returns
`(rows, cols)`.  The source computes `x, y = x*2, rows-1-y` and rejects when
`int(y) < 0 or int(y) >= rows or int(x) < 0 or int(x) >= cols`; rejection is
either a `Clipped` exception or `None`, both modelled as `none`.  On success
the transformed (unclipped, untruncated) coordinates are returned. -/
def clip (rows cols : ℤ) (pos : ℚ × ℚ) : Option (ℚ × ℚ) :=
  let x := pos.1 * 2
  let y := (rows : ℚ) - 1 - pos.2
  if intTrunc y < 0 ∨ rows ≤ intTrunc y ∨ intTrunc x < 0 ∨ cols ≤ intTrunc x then
    none
  else
    some (x, y)

/-- `class body`: a physical body with kinematic state.  The drawable
`thing` is independent of the physics and is modelled separately. -/
structure body where
  position : List ℚ
  velocity : List ℚ
  acceleration : List ℚ
deriving DecidableEq

/-- `body.advance(dt)`: integrate each axis of
`zip(position, velocity, acceleration)` with `homemade` (the scheme the
source actually calls), treating each axis's acceleration as constant. -/
def body.advance (dt : ℚ) (b : body) : body :=
  let pv := (b.position.zip (b.velocity.zip b.acceleration)).map
    (fun pva => homemade pva.1 pva.2.1 dt (fun _ => pva.2.2))
  { b with position := pv.map Prod.fst, velocity := pv.map Prod.snd }

/-- `body.constrain()`: if `position[Y] <= 0 and velocity[Y] < 0` (Python
evaluates `velocity[Y]` only when the first conjunct holds), snap
`position[Y] = 0`, set `velocity = [0,0]`, `acceleration = [0,0]`; in every
case report no replacement (`None`).  `R` is the element type of the
replacement list (Python's `None` is type-agnostic). -/
def body.constrain (R : Type) (b : body) : Option (body × Option (List R)) := do
  let py ← b.position[Y]?
  if py ≤ 0 then
    let vy ← b.velocity[Y]?
    if vy < 0 then
      pure ({ b with position := b.position.set Y 0,
                     velocity := [0, 0], acceleration := [0, 0] }, none)
    else
      pure (b, none)
  else
    pure (b, none)

/-- `class active(body)`: adds `mass`, `thrust`, `limit` (set to `None` by
`__init__`; the `rocket` subclass overwrites it). -/
structure active extends body where
  mass : ℚ
  thrust : List ℚ
  limit : Option ℚ
deriving DecidableEq

/-- `active.__init__`: stores `mass` and `thrust` verbatim with no
validation; `thrust` defaults to `[0 for _ in acceleration]` when absent;
`limit` starts as `None`. -/
def active.init (mass : ℚ) (thrust : Option (List ℚ))
    (position velocity acceleration : List ℚ) : active :=
  { position := position, velocity := velocity, acceleration := acceleration,
    mass := mass,
    thrust := thrust.getD (acceleration.map fun _ => 0),
    limit := none }

/-- `active.advance(dt)`: `acceleration = [t/mass for t in thrust]`, then
`acceleration[Y] += G`, then `body.advance`.  A zero mass raises
ZeroDivisionError in the comprehension (when `thrust` is nonempty) and a
thrust shorter than two entries raises IndexError at `acceleration[Y]`;
either way the call fails, modelled as `none`.  (For `mass = 0` and
`thrust = []` Python still fails, with IndexError.) -/
def active.advance (dt : ℚ) (st : active) : Option active :=
  if st.mass = 0 then none
  else do
    let acc := st.thrust.map (fun t => t / st.mass)
    let ay ← acc[Y]?
    let acc := acc.set Y (ay + G)
    let b := body.advance dt { st.tobody with acceleration := acc }
    pure { st with tobody := b }

/-- `class fragment(body, sprites)`: adds the rotation `speed` (a
`random.randint(1, 10)` draw) and an optional `timeout`; `glyph` is the
native `thing` it displays once grounded. -/
structure fragment extends body where
  glyph : Char
  speed : ℤ
  timeout : Option ℚ
deriving DecidableEq

/-- `fragment.advance(dt)`: `if self.done: timeout -= dt` (where `done` is
`position[Y] <= 0`, read before integrating), then `body.advance`. -/
def fragment.advance (dt : ℚ) (f : fragment) : Option fragment := do
  let py ← f.position[Y]?
  let f := if py ≤ 0 then
             match f.timeout with
             | some t => { f with timeout := some (t - dt) }
             | none => f
           else f
  pure { f with tobody := body.advance dt f.tobody }

/-- Repeated `fragment.advance` over a list of time steps. -/
def fragment.advanceSeq (dts : List ℚ) (f : fragment) : Option fragment :=
  dts.foldlM (fun s dt => fragment.advance dt s) f

/-- `fragment.constrain()`: `if self.timeout is not None and self.timeout <= 0:
return []`, else `super().constrain()` (the `body` rule). -/
def fragment.constrain (f : fragment) : Option (fragment × Option (List fragment)) :=
  match f.timeout with
  | some t =>
      if t ≤ 0 then some (f, some []) else
        (body.constrain fragment f.tobody).map
          (fun pr => ({ f with tobody := pr.1 }, pr.2))
  | none =>
      (body.constrain fragment f.tobody).map
        (fun pr => ({ f with tobody := pr.1 }, pr.2))

/-- `class rocket(autopilot, active, sprites)`: the `autopilot` base adds the
`target` position; `__init__` sets `limit = 4 * -G * mass`. -/
structure rocket extends active where
  target : List ℚ
deriving DecidableEq

/-- `momentum**2`: the square of `sum( v**2 for v in self.velocity ) ** .5`
from `rocket.constrain`.  Kept in squared form so everything stays in ℚ. -/
def momentumSq (vel : List ℚ) : ℚ :=
  (vel.map fun v => v ^ 2).sum

/-- Oracle for the random draws consumed by `rocket.constrain` (and the
`fragment.__init__` calls it makes): the fragment `count` from
`random.randint(2, 10)`, each fragment's velocity components `draw i axis`
from `random.uniform(-momentum/count*2, momentum/count*2)`, the glyph from
`random.choice('xX!@#%^')` and the rotation speed from `random.randint(1, 10)`. -/
structure CrashRand where
  count : ℕ
  draw : ℕ → ℕ → ℚ
  glyph : ℕ → Char
  speed : ℕ → ℤ

/-- What the random library guarantees about the draws of a `CrashRand`
used at velocity `vel`.  `random.uniform(-L, L)` with
`L = momentum/count*2 ≥ 0` yields `|d| ≤ L`, which (squaring, with
`count > 0`) is exactly `d^2 * count^2 ≤ 4 * momentum^2 = 4 * momentumSq vel`
— the squared form avoids the irrational `momentum` itself. -/
def CrashRandValid (vel : List ℚ) (r : CrashRand) : Prop :=
  2 ≤ r.count ∧ r.count ≤ 10 ∧
  (∀ i ax, (r.draw i ax) ^ 2 * (r.count : ℚ) ^ 2 ≤ 4 * momentumSq vel) ∧
  (∀ i, 1 ≤ r.speed i ∧ r.speed i ≤ 10) ∧
  (∀ i, r.glyph i ∈ "xX!@#%^".toList)

/-- One fragment built by the loop body of `rocket.constrain`:
`fragment( random.choice('xX!@#%^'), timeout=5, position=[self.position[X],0],
acceleration=[0,G], velocity=[uniform(..), uniform(..)] )`. -/
def mkCrashFragment (r : CrashRand) (px : ℚ) (i : ℕ) : fragment :=
  { position := [px, 0], velocity := [r.draw i X, r.draw i Y],
    acceleration := [0, G],
    glyph := r.glyph i, speed := r.speed i, timeout := some 5 }

/-- `rocket.constrain()`: on `position[Y] <= 0 and velocity[Y] < -1`
(short-circuit evaluation as in Python) replace the rocket with `count`
fresh fragments; otherwise fall through to `body.constrain`. -/
def rocket.constrain (r : CrashRand) (st : rocket) : Option (rocket × Option (List fragment)) := do
  let py ← st.position[Y]?
  if py ≤ 0 then
    let vy ← st.velocity[Y]?
    if vy < -1 then
      let px ← st.position[X]?
      pure (st, some ((List.range r.count).map (mkCrashFragment r px)))
    else
      let pr ← body.constrain fragment st.tobody
      pure ({ st with tobody := pr.1 }, pr.2)
  else
    let pr ← body.constrain fragment st.tobody
    pure ({ st with tobody := pr.1 }, pr.2)

/-- `autopilot.advance(dt, now)`: sets
`thrust[Y] = limit * controller.loop(setpoint=0., process=difference(), now) / 100`
then delegates to `active.advance`.  The PID library call is abstracted by
its output `loopOut` (the library clamps it to the configured
`Lout = (0, 100.0)`); `difference()` reads `position[Y] - target[Y]`, and
the assignment `thrust[Y] = ...` needs a `Y` entry, so those accesses can
raise IndexError (and `limit` is `None` until `rocket.__init__` sets it,
raising TypeError) — all modelled as `none`. -/
def autopilot.advance (loopOut dt : ℚ) (st : rocket) : Option rocket := do
  let lim ← st.limit
  let py ← st.position[Y]?
  let ty ← st.target[Y]?
  let _diff := py - ty
  let _ ← st.thrust[Y]?
  let st := { st with thrust := st.thrust.set Y (lim * loopOut / 100) }
  let a ← active.advance dt st.toactive
  pure { st with toactive := a }

/-- `exhaust.thing`: `random.choice( super().thing )` — indexes the glyph
string at a fresh draw `rndIdx` from the global random stream
(`random.choice(s)` is `s[randrange(len(s))]`). -/
def exhaust.thing (glyphs : List Char) (rndIdx : ℕ) : Option Char :=
  glyphs[rndIdx]?

/-- The four rotation glyphs (bar, slash, dash, backslash) that
`fragment.thing` cycles through. -/
def rotatingGlyphs : List Char := ['|', '/', '-', '\\']

/-- The airborne branch of `fragment.thing`: it indexes the rotation glyphs
at `int( timer() * 13 / self.speed ) % 4`, a function of the wall time `t`
and the per-sprite `speed` alone. -/
def fragment.rotatingThing (t : ℚ) (speed : ℤ) : Char :=
  rotatingGlyphs.get
    ⟨((intTrunc (t * 13 / (speed : ℚ))).emod 4).toNat, by
      have h1 : (0 : ℤ) ≤ (intTrunc (t * 13 / (speed : ℚ))).emod 4 :=
        Int.emod_nonneg _ (by norm_num)
      have h2 : (intTrunc (t * 13 / (speed : ℚ))).emod 4 < 4 :=
        Int.emod_lt_of_pos _ (by norm_num)
      show ((intTrunc (t * 13 / (speed : ℚ))).emod 4).toNat < 4
      omega⟩

/-- `fragment.thing` at wall time `t`: the rotating glyph while airborne
(`not self.done`), and the native glyph once `done` (`position[Y] <= 0`).
Reading `done` accesses `position[Y]`, hence the `Option`. -/
def fragment.thing (t : ℚ) (f : fragment) : Option Char := do
  let py ← f.position[Y]?
  if py ≤ 0 then pure f.glyph else pure (fragment.rotatingThing t f.speed)

/-- Claim C3: for every scalar position `p`, velocity `v`, time step `dt`
and constant acceleration `a` (the callback returns `c` for every argument),
`verlet` and `homemade` return the same pair, namely
`v_new = v + c*dt` and `p_new = p + v*dt + c*dt^2/2`. -/
theorem verlet_homemade_agree (p v dt c : ℚ) (a : ℚ → ℚ) (ha : ∀ x, a x = c) :
    verlet p v dt a = homemade p v dt a ∧
    homemade p v dt a = (p + v * dt + c * dt ^ 2 / 2, v + c * dt) := by
  simp only [verlet, homemade, ha, Prod.mk.injEq]
  refine ⟨⟨by ring, by ring⟩, by ring, by ring_nf⟩

/-- Witness for C3 at `p = 1, v = 2, dt = 3, a ≡ 5`. -/
theorem verlet_homemade_agree_witness :
    verlet 1 2 3 (fun _ => 5) = homemade 1 2 3 (fun _ => 5) ∧
    homemade 1 2 3 (fun _ => 5) = (1 + 2 * 3 + 5 * 3 ^ 2 / 2, 2 + 5 * 3) :=
  verlet_homemade_agree 1 2 3 5 (fun _ => 5) (fun _ => rfl)

/-- Claim C2: a plain body with `position[Y] ≤ 0` and `velocity[Y] < 0` is
snapped to rest (`position[Y] = 0`, zero velocity and acceleration) with no
replacement; any other body is returned unchanged with no replacement; in
particular a body already resting at `position[Y] = 0` with zero velocity is
left exactly as-is, so `constrain` is idempotent on resting bodies. -/
theorem body_constrain_rest (b : body) (py vy : ℚ)
    (hpy : b.position[Y]? = some py) (hvy : b.velocity[Y]? = some vy) :
    (py ≤ 0 → vy < 0 →
      body.constrain body b =
        some ({ b with position := b.position.set Y 0,
                       velocity := [0, 0], acceleration := [0, 0] }, none)) ∧
    (¬ (py ≤ 0 ∧ vy < 0) → body.constrain body b = some (b, none)) ∧
    (py = 0 → b.velocity = [0, 0] → body.constrain body b = some (b, none)) := by
  refine ⟨fun h1 h2 => ?_, fun h => ?_, fun h1 h2 => ?_⟩
  · simp [body.constrain, hpy, hvy, h1, h2]
  · rcases Classical.em (py ≤ 0) with h1 | h1
    · have h2 : ¬ vy < 0 := fun h2 => h ⟨h1, h2⟩
      simp [body.constrain, hpy, hvy, h1, h2]
    · simp [body.constrain, hpy, h1]
  · have hvy0 : vy = 0 := by
      rw [h2] at hvy
      have : vy = (0 : ℚ) := by
        simpa [Y] using hvy.symm
      exact this
    simp [body.constrain, hpy, hvy, h1, hvy0]

/-- Witness for C2: a falling grounded body snaps to rest and a resting body
is left untouched. -/
theorem body_constrain_rest_witness :
    (body.constrain body ⟨[3, 0], [1, -2], [0, G]⟩ =
      some (⟨[3, 0], [0, 0], [0, 0]⟩, none)) ∧
    (body.constrain body ⟨[3, 0], [0, 0], [0, 0]⟩ = some (⟨[3, 0], [0, 0], [0, 0]⟩, none)) := by
  constructor
  · have h := (body_constrain_rest ⟨[3, 0], [1, -2], [0, G]⟩ 0 (-2) rfl rfl).1
      (le_refl 0) (by norm_num)
    simpa [Y] using h
  · exact (body_constrain_rest ⟨[3, 0], [0, 0], [0, 0]⟩ 0 0 rfl rfl).2.2 rfl rfl

/-- `intTrunc` is the identity on integers. -/
theorem intTrunc_intCast (z : ℤ) : intTrunc (z : ℚ) = z := by
  unfold intTrunc
  split_ifs <;> simp

/-- `intTrunc` of a rational in `(-1, 0]` is `0` (truncation toward zero). -/
theorem intTrunc_eq_zero_of_neg (q : ℚ) (h1 : -1 < q) (h2 : q ≤ 0) :
    intTrunc q = 0 := by
  unfold intTrunc
  split_ifs with h
  · have : q = 0 := le_antisymm h2 h
    simp [this]
  · exact Int.ceil_eq_iff.mpr (by constructor <;> simpa)

/-- Success characterization of `clip`, read off its definition. -/
theorem clip_eq_some_iff (rows cols : ℤ) (pos : ℚ × ℚ) (x' y' : ℚ) :
    clip rows cols pos = some (x', y') ↔
      x' = pos.1 * 2 ∧ y' = (rows : ℚ) - 1 - pos.2 ∧
      0 ≤ intTrunc (pos.1 * 2) ∧ intTrunc (pos.1 * 2) < cols ∧
      0 ≤ intTrunc ((rows : ℚ) - 1 - pos.2) ∧ intTrunc ((rows : ℚ) - 1 - pos.2) < rows := by
  simp only [clip]
  split_ifs with hc
  · simp only [reduceCtorEq, false_iff]
    rintro ⟨rfl, rfl, h3, h4, h1, h2⟩
    rcases hc with h | h | h | h <;> omega
  · push_neg at hc
    obtain ⟨h1, h2, h3, h4⟩ := hc
    simp only [Option.some.injEq, Prod.mk.injEq]
    constructor
    · rintro ⟨h5, h6⟩
      exact ⟨h5.symm, h6.symm, h3, h4, h1, h2⟩
    · rintro ⟨rfl, rfl, _⟩
      exact ⟨rfl, rfl⟩

/-- Counterexample to claim C4 as stated: at grid `rows = 10, cols = 10` and
position `(-1/4, 3)`, `clip` succeeds (Python `int()` truncates the screen
column `-1/2` toward zero, to `0`, which passes the bounds test) yet the
returned screen column `x' = -1/2` does not lie in `[0, cols)`. -/
theorem clip_fractional_cex :
    clip 10 10 (-1/4, 3) = some (-1/2, 6) ∧ ¬ ((0 : ℚ) ≤ -1/2) := by
  have ex : ((-1/4, 3) : ℚ × ℚ).1 * 2 = -1/2 := by norm_num
  have ey : ((10 : ℤ) : ℚ) - 1 - ((-1/4, 3) : ℚ × ℚ).2 = ((6 : ℤ) : ℚ) := by norm_num
  refine ⟨(clip_eq_some_iff 10 10 (-1/4, 3) (-1/2) 6).mpr ?_, by norm_num⟩
  rw [ex, ey, intTrunc_intCast, intTrunc_eq_zero_of_neg (-1/2) (by norm_num) (by norm_num)]
  refine ⟨by norm_num, by norm_num, le_refl 0, by norm_num, by norm_num, by norm_num⟩

/-- Claim C4 (amended): `clip` first transforms `(x, y)` to
`(x' , y') = (2x, rows - 1 - y)` (horizontal cell-aspect scaling and vertical
flip) and rejects exactly when the toward-zero truncation of a transformed
coordinate falls outside `[0, rows)` × `[0, cols)`; on success it returns the
untruncated transformed pair, whose truncations lie in range.  For integer
positions this gives the claimed bounds (`0 ≤ 2m < cols`, `0 ≤ n < rows`) and
the flip identity `y' + n = rows - 1`. -/
theorem clip_characterization (rows cols : ℤ) (pos : ℚ × ℚ) :
    (clip rows cols pos = none ↔
      intTrunc ((rows : ℚ) - 1 - pos.2) < 0 ∨ rows ≤ intTrunc ((rows : ℚ) - 1 - pos.2) ∨
      intTrunc (pos.1 * 2) < 0 ∨ cols ≤ intTrunc (pos.1 * 2)) ∧
    (∀ x' y', clip rows cols pos = some (x', y') →
      x' = pos.1 * 2 ∧ y' = (rows : ℚ) - 1 - pos.2 ∧
      0 ≤ intTrunc x' ∧ intTrunc x' < cols ∧ 0 ≤ intTrunc y' ∧ intTrunc y' < rows) ∧
    (∀ m n : ℤ, ∀ x' y', clip rows cols ((m : ℚ), (n : ℚ)) = some (x', y') →
      x' = 2 * (m : ℚ) ∧ y' + (n : ℚ) = (rows : ℚ) - 1 ∧
      0 ≤ n ∧ n < rows ∧ 0 ≤ 2 * m ∧ 2 * m < cols) := by
  have key : ∀ q : ℚ × ℚ, ∀ x' y', clip rows cols q = some (x', y') →
      x' = q.1 * 2 ∧ y' = (rows : ℚ) - 1 - q.2 ∧
      0 ≤ intTrunc x' ∧ intTrunc x' < cols ∧ 0 ≤ intTrunc y' ∧ intTrunc y' < rows := by
    intro q x' y' h
    obtain ⟨h5, h6, h3, h4, h1, h2⟩ := (clip_eq_some_iff rows cols q x' y').mp h
    subst h5
    subst h6
    exact ⟨rfl, rfl, h3, h4, h1, h2⟩
  refine ⟨?_, key pos, ?_⟩
  · simp only [clip]
    split_ifs with hc
    · simpa using hc
    · simp only [reduceCtorEq, false_iff]
      tauto
  · intro m n x' y' h
    obtain ⟨hx, hy, h1, h2, h3, h4⟩ := key ((m : ℚ), (n : ℚ)) x' y' h
    have hyz : ((rows : ℚ) - 1 - (n : ℚ)) = ((rows - 1 - n : ℤ) : ℚ) := by push_cast; ring
    have hxz : ((m : ℚ) * 2) = ((2 * m : ℤ) : ℚ) := by push_cast; ring
    rw [hx, hxz, intTrunc_intCast] at h1 h2
    rw [hy, hyz, intTrunc_intCast] at h3 h4
    refine ⟨by rw [hx]; ring, by rw [hy]; ring, by omega, by omega, h1, h2⟩

/-- Witness for the amended C4 at grid `10 × 20`, integer position `(3, 4)`. -/
theorem clip_characterization_witness :
    (6 : ℚ) = 2 * ((3 : ℤ) : ℚ) ∧ (5 : ℚ) + ((4 : ℤ) : ℚ) = ((10 : ℤ) : ℚ) - 1 ∧
    (0 : ℤ) ≤ 4 ∧ (4 : ℤ) < 10 ∧ (0 : ℤ) ≤ 2 * 3 ∧ (2 * 3 : ℤ) < 20 :=
  (clip_characterization 10 20 (((3 : ℤ) : ℚ), ((4 : ℤ) : ℚ))).2.2 3 4 6 5 (by
    simp only [clip, intTrunc]
    norm_num)

/-- Claim C1: a rocket with `position[Y] ≤ 0` and `velocity[Y] < -1` is
replaced by a non-empty list of `count ∈ [2,10]` fragments, each spawned at
the rocket's unchanged horizontal position and ground level, with
gravity-only acceleration `[0, G]`, a finite lifetime of `5`, and velocity
components `u` with `|u| ≤ 2·momentum/count` — stated in the equivalent
squared form `u² · count² ≤ 4 · momentumSq` to stay inside ℚ.  This holds
for every valid outcome of the random draws. -/
theorem rocket_crash_fragments (st : rocket) (r : CrashRand) (py vy px : ℚ)
    (hv : CrashRandValid st.velocity r)
    (hpy : st.position[Y]? = some py) (hpy0 : py ≤ 0)
    (hvy : st.velocity[Y]? = some vy) (hvy1 : vy < -1)
    (hpx : st.position[X]? = some px) :
    ∃ frags, rocket.constrain r st = some (st, some frags) ∧
      frags.length = r.count ∧ 2 ≤ frags.length ∧ frags.length ≤ 10 ∧ frags ≠ [] ∧
      ∀ f ∈ frags, f.position = [px, 0] ∧ f.acceleration = [0, G] ∧
        f.timeout = some 5 ∧
        ∀ u ∈ f.velocity,
          u ^ 2 * (frags.length : ℚ) ^ 2 ≤ 4 * momentumSq st.velocity := by
  obtain ⟨hc2, hc10, hdraw, hspeed, hglyph⟩ := hv
  refine ⟨(List.range r.count).map (mkCrashFragment r px), ?_, by simp, ?_, ?_, ?_, ?_⟩
  · simp [rocket.constrain, hpy, hpy0, hvy, hvy1, hpx]
  · simpa using hc2
  · simpa using hc10
  · have : r.count ≠ 0 := by omega
    simp [this]
  · intro f hf
    simp only [List.mem_map, List.mem_range] at hf
    obtain ⟨i, _, rfl⟩ := hf
    refine ⟨rfl, rfl, rfl, ?_⟩
    intro u hu
    have hlen : (((List.range r.count).map (mkCrashFragment r px)).length : ℚ) = (r.count : ℚ) := by
      simp
    rw [hlen]
    simp only [mkCrashFragment, List.mem_cons, List.not_mem_nil, or_false] at hu
    rcases hu with rfl | rfl
    · exact hdraw i X
    · exact hdraw i Y

/-- Concrete rocket for the C1 witness: grounded, descending at 5 units/s. -/
def crashRocketW : rocket :=
  { position := [3, 0], velocity := [0, -5], acceleration := [0, G],
    mass := 1000, thrust := [0, 0], limit := some (4 * -G * 1000),
    target := [0, 0] }

/-- Concrete random oracle for the C1 witness: 2 fragments, all velocity
draws `0`, glyph `x`, rotation speed `1`. -/
def crashRandW : CrashRand :=
  { count := 2, draw := fun _ _ => 0, glyph := fun _ => 'x', speed := fun _ => 1 }

/-- Witness for C1 at `crashRocketW` and `crashRandW`. -/
theorem rocket_crash_fragments_witness :
    ∃ frags, rocket.constrain crashRandW crashRocketW = some (crashRocketW, some frags) ∧
      frags.length = crashRandW.count ∧ 2 ≤ frags.length ∧ frags.length ≤ 10 ∧ frags ≠ [] ∧
      ∀ f ∈ frags, f.position = [3, 0] ∧ f.acceleration = [0, G] ∧
        f.timeout = some 5 ∧
        ∀ u ∈ f.velocity,
          u ^ 2 * (frags.length : ℚ) ^ 2 ≤ 4 * momentumSq crashRocketW.velocity :=
  rocket_crash_fragments crashRocketW crashRandW 0 (-5) 3
    (by
      refine ⟨by norm_num [crashRandW], by norm_num [crashRandW],
        fun i ax => ?_, fun i => ?_, fun i => ?_⟩
      · norm_num [crashRandW, crashRocketW, momentumSq]
      · norm_num [crashRandW]
      · simp only [crashRandW]
        decide)
    rfl le_rfl rfl (by norm_num) rfl

/-- Any successful `body.constrain` reports no replacement and either leaves
the body unchanged or snaps it to rest. -/
theorem body_constrain_result (R : Type) (b : body) (pr : body × Option (List R))
    (h : body.constrain R b = some pr) :
    pr.2 = none ∧
    (pr.1 = b ∨
     pr.1 = { b with position := b.position.set Y 0,
                     velocity := [0, 0], acceleration := [0, 0] }) := by
  simp only [body.constrain] at h
  cases hp : b.position[Y]? with
  | none => simp [hp] at h
  | some py =>
      simp only [hp, Option.bind_eq_bind, Option.some_bind] at h
      split_ifs at h with h1
      · cases hv : b.velocity[Y]? with
        | none => simp [hv] at h
        | some vy =>
            simp only [hv, Option.bind_eq_bind, Option.some_bind] at h
            split_ifs at h with h2
            · obtain rfl := (Option.some.inj h).symm
              exact ⟨rfl, Or.inr rfl⟩
            · obtain rfl := (Option.some.inj h).symm
              exact ⟨rfl, Or.inl rfl⟩
      · obtain rfl := (Option.some.inj h).symm
        exact ⟨rfl, Or.inl rfl⟩

/-- `body.constrain` never changes the entry at index `X`. -/
theorem body_constrain_fst_position (R : Type) (b : body) (pr : body × Option (List R))
    (h : body.constrain R b = some pr) :
    pr.1.position[X]? = b.position[X]? := by
  rcases (body_constrain_result R b pr h).2 with h1 | h1
  · rw [h1]
  · rw [h1]
    exact List.getElem?_set_ne (by simp [X, Y])

/-- Claim C10: every `constrain` — plain body, fragment, rocket — leaves the
horizontal position entry unchanged, and crash decomposition spawns each
replacement fragment at the crashing rocket's unchanged horizontal
coordinate. -/
theorem constrain_preserves_horizontal :
    (∀ (b : body) (pr : body × Option (List body)),
      body.constrain body b = some pr → pr.1.position[X]? = b.position[X]?) ∧
    (∀ (f : fragment) (pr : fragment × Option (List fragment)),
      fragment.constrain f = some pr → pr.1.position[X]? = f.position[X]?) ∧
    (∀ (st : rocket) (r : CrashRand) (pr : rocket × Option (List fragment)),
      rocket.constrain r st = some pr →
        pr.1.position[X]? = st.position[X]? ∧
        ∀ frag ∈ pr.2.getD [], frag.position[X]? = st.position[X]?) := by
  refine ⟨fun b pr h => body_constrain_fst_position body b pr h, ?_, ?_⟩
  · intro f pr h
    simp only [fragment.constrain] at h
    cases ht : f.timeout with
    | some t =>
        simp only [ht] at h
        split_ifs at h with h1
        · obtain rfl := (Option.some.inj h).symm
          rfl
        · cases hb : body.constrain fragment f.tobody with
          | none => simp [hb] at h
          | some pr0 =>
              simp only [hb, Option.map_some] at h
              obtain rfl := (Option.some.inj h).symm
              exact body_constrain_fst_position fragment f.tobody pr0 hb
    | none =>
        simp only [ht] at h
        cases hb : body.constrain fragment f.tobody with
        | none => simp [hb] at h
        | some pr0 =>
            simp only [hb, Option.map_some] at h
            obtain rfl := (Option.some.inj h).symm
            exact body_constrain_fst_position fragment f.tobody pr0 hb
  · intro st r pr h
    simp only [rocket.constrain] at h
    cases hp : st.position[Y]? with
    | none => simp [hp] at h
    | some py =>
        simp only [hp, Option.bind_eq_bind, Option.some_bind] at h
        split_ifs at h with h1
        · cases hv : st.velocity[Y]? with
          | none => simp [hv] at h
          | some vy =>
              simp only [hv, Option.bind_eq_bind, Option.some_bind] at h
              split_ifs at h with h2
              · cases hx : st.position[X]? with
                | none => simp [hx] at h
                | some px =>
                    simp only [hx, Option.bind_eq_bind, Option.some_bind] at h
                    obtain rfl := (Option.some.inj h).symm
                    refine ⟨hx, ?_⟩
                    intro frag hf
                    simp only [Option.getD_some, List.mem_map, List.mem_range] at hf
                    obtain ⟨i, _, rfl⟩ := hf
                    rfl
              · cases hb : body.constrain fragment st.tobody with
                | none => simp [hb] at h
                | some pr0 =>
                    simp only [hb, Option.bind_eq_bind, Option.some_bind] at h
                    obtain rfl := (Option.some.inj h).symm
                    refine ⟨body_constrain_fst_position fragment st.tobody pr0 hb, ?_⟩
                    intro frag hf
                    rw [(body_constrain_result fragment st.tobody pr0 hb).1] at hf
                    simp at hf
        · cases hb : body.constrain fragment st.tobody with
          | none => simp [hb] at h
          | some pr0 =>
              simp only [hb, Option.bind_eq_bind, Option.some_bind] at h
              obtain rfl := (Option.some.inj h).symm
              refine ⟨body_constrain_fst_position fragment st.tobody pr0 hb, ?_⟩
              intro frag hf
              rw [(body_constrain_result fragment st.tobody pr0 hb).1] at hf
              simp at hf

/-- Witness for C10: the three parts applied at a resting body, a timed-out
fragment and a crashing rocket. -/
theorem constrain_preserves_horizontal_witness :
    ((⟨[3, 0], [0, 0], [0, 0]⟩ : body).position[X]? = some 3 ∧
      ∀ pr, body.constrain body ⟨[3, 0], [1, -2], [0, G]⟩ = some pr →
        pr.1.position[X]? = some 3) ∧
    (∀ pr, rocket.constrain crashRandW crashRocketW = some pr →
      pr.1.position[X]? = crashRocketW.position[X]?) := by
  refine ⟨⟨rfl, fun pr h => ?_⟩, fun pr h => ?_⟩
  · have := constrain_preserves_horizontal.1 ⟨[3, 0], [1, -2], [0, G]⟩ pr h
    rw [this]
    rfl
  · exact (constrain_preserves_horizontal.2.2 crashRocketW crashRandW pr h).1

/-- A run of `advance` calls during which the fragment is grounded
(`done`, i.e. `position[Y] ≤ 0`) at the moment of each call. -/
def GroundedRun : List ℚ → fragment → Prop
  | [], _ => True
  | dt :: rest, f =>
      (∃ py, f.position[Y]? = some py ∧ py ≤ 0) ∧
      ∀ f', fragment.advance dt f = some f' → GroundedRun rest f'

/-- A single grounded `advance` call with a finite timeout succeeds and
decreases the timeout by exactly `dt`. -/
theorem fragment_advance_timeout (dt : ℚ) (f : fragment) (t py : ℚ)
    (ht : f.timeout = some t) (hpy : f.position[Y]? = some py) (hg : py ≤ 0) :
    fragment.advance dt f =
      some { f with timeout := some (t - dt),
                    tobody := body.advance dt { f.tobody with } } := by
  simp only [fragment.advance, hpy, Option.bind_eq_bind, Option.some_bind, if_pos hg, ht]
  rfl

/-- Over a grounded run, the timeout drops by the sum of the steps. -/
theorem fragment_advanceSeq_timeout (dts : List ℚ) (f : fragment) (t : ℚ)
    (ht : f.timeout = some t) (hg : GroundedRun dts f) :
    ∃ ff, fragment.advanceSeq dts f = some ff ∧ ff.timeout = some (t - dts.sum) := by
  induction dts generalizing f t with
  | nil =>
      exact ⟨f, rfl, by simpa using ht⟩
  | cons dt rest ih =>
      obtain ⟨⟨py, hpy, hg0⟩, hnext⟩ := hg
      have hstep := fragment_advance_timeout dt f t py ht hpy hg0
      set f1 : fragment :=
        { f with timeout := some (t - dt),
                 tobody := body.advance dt { f.tobody with } } with hf1
      obtain ⟨ff, hff, htt⟩ := ih f1 (t - dt) rfl (hnext f1 hstep)
      refine ⟨ff, ?_, ?_⟩
      · simpa [fragment.advanceSeq, List.foldlM_cons, hstep] using hff
      · rw [htt, List.sum_cons]
        congr 1
        ring

/-- Claim C7: for a fragment with a finite timeout, a grounded `advance(dt)`
decreases the timeout by exactly `dt`; `constrain()` returns the empty
replacement list once the timeout is `≤ 0`; hence after any grounded run
whose steps sum to more than the initial timeout, `constrain()` returns `[]`. -/
theorem fragment_timeout_selfdestruct :
    (∀ (f : fragment) (t : ℚ), f.timeout = some t → t ≤ 0 →
      fragment.constrain f = some (f, some [])) ∧
    (∀ (dt : ℚ) (f : fragment) (t py : ℚ),
      f.timeout = some t → f.position[Y]? = some py → py ≤ 0 →
      ∃ f', fragment.advance dt f = some f' ∧ f'.timeout = some (t - dt)) ∧
    (∀ (dts : List ℚ) (f : fragment) (t : ℚ),
      f.timeout = some t → GroundedRun dts f → t < dts.sum →
      ∃ ff, fragment.advanceSeq dts f = some ff ∧
        ff.timeout = some (t - dts.sum) ∧
        fragment.constrain ff = some (ff, some [])) := by
  have hcon : ∀ (f : fragment) (t : ℚ), f.timeout = some t → t ≤ 0 →
      fragment.constrain f = some (f, some []) := by
    intro f t ht h0
    simp [fragment.constrain, ht, h0]
  refine ⟨hcon, ?_, ?_⟩
  · intro dt f t py ht hpy hg
    exact ⟨_, fragment_advance_timeout dt f t py ht hpy hg, rfl⟩
  · intro dts f t ht hg hsum
    obtain ⟨ff, hff, htt⟩ := fragment_advanceSeq_timeout dts f t ht hg
    exact ⟨ff, hff, htt, hcon ff (t - dts.sum) htt (by linarith)⟩

/-- Grounded fragment for the C7 witness. -/
def fragW : fragment :=
  { position := [3, 0], velocity := [0, 0], acceleration := [0, 0],
    glyph := 'x', speed := 1, timeout := some 1 }

/-- Witness for C7: `fragW` has timeout `1`; one grounded step of `dt = 2`
drives it to `-1` and `constrain` then destroys it. -/
theorem fragment_timeout_selfdestruct_witness :
    (∃ ff, fragment.advanceSeq [2] fragW = some ff ∧
      ff.timeout = some (1 - ([2] : List ℚ).sum) ∧
      fragment.constrain ff = some (ff, some [])) ∧
    (∀ f', fragment.advance 2 fragW = some f' → f'.timeout = some (1 - 2)) := by
  constructor
  · refine fragment_timeout_selfdestruct.2.2 [2] fragW 1 rfl ?_ (by norm_num)
    exact ⟨⟨0, rfl, le_refl 0⟩, fun f' _ => trivial⟩
  · intro f' h'
    obtain ⟨f'', h'', ht''⟩ :=
      fragment_timeout_selfdestruct.2.1 2 fragW 1 0 rfl rfl (le_refl 0)
    rw [h'] at h''
    obtain rfl := Option.some.inj h''
    exact ht''

/-- `active.advance` does not touch `thrust`, `mass` or `limit`. -/
theorem active_advance_frame (dt : ℚ) (s a : active) (h : active.advance dt s = some a) :
    a.thrust = s.thrust ∧ a.mass = s.mass ∧ a.limit = s.limit := by
  simp only [active.advance] at h
  split_ifs at h
  simp only [Option.bind_eq_bind] at h
  obtain ⟨ay, hay, h⟩ := Option.bind_eq_some.mp h
  obtain rfl := (Option.some.inj h).symm
  exact ⟨rfl, rfl, rfl⟩

/-- Claim C5: with a thrust ceiling `limit = lim ≥ 0` and a PID loop output
`out` inside its configured bound `[0, 100]`, a successful
`autopilot.advance` leaves the commanded vertical thrust at
`lim * out / 100`, which lies in `[0, lim]`; the bound is established on the
wrapped state before `active.advance` is delegated to (which never changes
thrust). -/
theorem autopilot_thrust_bound (st : rocket) (lim out dt : ℚ) (st' : rocket)
    (hlim : st.limit = some lim) (h0 : 0 ≤ lim)
    (ho0 : 0 ≤ out) (ho100 : out ≤ 100)
    (hadv : autopilot.advance out dt st = some st') :
    ∃ ty, st'.thrust[Y]? = some ty ∧ 0 ≤ ty ∧ ty ≤ lim ∧ ty = lim * out / 100 := by
  simp only [autopilot.advance, hlim, Option.bind_eq_bind, Option.some_bind] at hadv
  obtain ⟨py, hpy, hadv⟩ := Option.bind_eq_some.mp hadv
  obtain ⟨ty0, hty0, hadv⟩ := Option.bind_eq_some.mp hadv
  obtain ⟨tz, htz, hadv⟩ := Option.bind_eq_some.mp hadv
  obtain ⟨a, ha, hadv⟩ := Option.bind_eq_some.mp hadv
  obtain rfl := (Option.some.inj hadv).symm
  have hthr : a.thrust = st.thrust.set Y (lim * out / 100) :=
    (active_advance_frame dt _ a ha).1
  have hYlt : Y < st.thrust.length := by
    by_contra hge
    rw [List.getElem?_eq_none (le_of_not_lt hge)] at htz
    exact Option.noConfusion htz
  refine ⟨lim * out / 100, ?_, ?_, ?_, rfl⟩
  · show a.thrust[Y]? = some (lim * out / 100)
    rw [hthr]
    exact List.getElem?_set_eq_of_lt _ hYlt
  · positivity
  · rw [div_le_iff₀ (by norm_num : (0:ℚ) < 100)]
    nlinarith

/-- Concrete autopilot rocket for the C5 witness. -/
def apRocketW : rocket :=
  { position := [0, 100], velocity := [0, 0], acceleration := [0, 0],
    mass := 1, thrust := [0, 0], limit := some 10, target := [0, 0] }

/-- The state `apRocketW` reaches after `autopilot.advance` with loop output
`50` and `dt = 0`. -/
def apResultW : rocket :=
  { position := [0, 100], velocity := [0, 0], acceleration := [0, -481/100],
    mass := 1, thrust := [0, 5], limit := some 10, target := [0, 0] }

/-- Witness for C5 at `apRocketW`, loop output `50`, `dt = 0`. -/
theorem autopilot_thrust_bound_witness :
    ∃ ty, apResultW.thrust[Y]? = some ty ∧ 0 ≤ ty ∧ ty ≤ 10 ∧ ty = 10 * 50 / 100 :=
  autopilot_thrust_bound apRocketW 10 50 0 apResultW rfl (by norm_num)
    (by norm_num) (by norm_num) (by
      simp only [autopilot.advance, active.advance, body.advance, homemade,
        apRocketW, apResultW, X, Y, G]
      norm_num)

/-- Claim C6: `active.advance` recomputes the acceleration from
`thrust / mass` plus gravity on the vertical axis before integrating, so its
entire result is independent of the acceleration held before the call, and
on success the stored acceleration is exactly the recomputed one. -/
theorem active_advance_recomputes (st : active) (a' : List ℚ) (dt : ℚ)
    (_hm : 0 < st.mass) :
    active.advance dt { st with acceleration := a' } = active.advance dt st ∧
    ∀ st', active.advance dt st = some st' →
      ∃ ay, (st.thrust.map fun t => t / st.mass)[Y]? = some ay ∧
        st'.acceleration = (st.thrust.map fun t => t / st.mass).set Y (ay + G) := by
  constructor
  · rfl
  · intro st' h
    simp only [active.advance] at h
    split_ifs at h
    simp only [Option.bind_eq_bind] at h
    obtain ⟨ay, hay, h⟩ := Option.bind_eq_some.mp h
    obtain rfl := (Option.some.inj h).symm
    refine ⟨ay, ?_, rfl⟩
    simpa using hay

/-- Concrete powered body for the C6 witness. -/
def activeW : active :=
  { position := [0, 0], velocity := [0, 0], acceleration := [0, 0],
    mass := 1, thrust := [0, 0], limit := none }

/-- The state `activeW` reaches after `active.advance` with `dt = 1`. -/
def activeResultW : active :=
  { position := [0, G/2], velocity := [0, G], acceleration := [0, G],
    mass := 1, thrust := [0, 0], limit := none }

/-- Witness for C6 at `activeW`, overwritten acceleration `[9, 9]`, `dt = 1`. -/
theorem active_advance_recomputes_witness :
    active.advance 1 { activeW with acceleration := [9, 9] } = active.advance 1 activeW ∧
    ∃ ay, (activeW.thrust.map fun t => t / activeW.mass)[Y]? = some ay ∧
      activeResultW.acceleration = (activeW.thrust.map fun t => t / activeW.mass).set Y (ay + G) :=
  ⟨(active_advance_recomputes activeW [9, 9] 1 (by norm_num [activeW])).1,
   (active_advance_recomputes activeW [9, 9] 1 (by norm_num [activeW])).2 activeResultW (by
     simp only [active.advance, body.advance, homemade, activeW, activeResultW, X, Y, G]
     norm_num)⟩

/-- Counterexample to claim C8 as stated: constructing an `active` body with
`mass = 0` and a 3-entry thrust against a 2-entry position completes
successfully — `active.__init__` performs no validation — and the invalid
values are stored verbatim. -/
theorem active_init_no_validation_cex :
    (active.init 0 (some [1, 2, 3]) [0, 0] [0, 0] [0, 0]).mass = 0 ∧
    (active.init 0 (some [1, 2, 3]) [0, 0] [0, 0] [0, 0]).thrust.length ≠
      (active.init 0 (some [1, 2, 3]) [0, 0] [0, 0] [0, 0]).position.length := by
  exact ⟨rfl, by simp [active.init]⟩

/-- Claim C8 (amended): construction never fails and never coerces — `mass`
and `thrust` are stored exactly as given (with `thrust` defaulting to a zero
vector of the acceleration's length); a zero mass only surfaces later, as a
failure of `advance`. -/
theorem active_init_stores_verbatim (m : ℚ) (thr pos vel acc : List ℚ) (dt : ℚ) :
    (active.init m (some thr) pos vel acc).mass = m ∧
    (active.init m (some thr) pos vel acc).thrust = thr ∧
    (active.init m none pos vel acc).thrust = acc.map (fun _ => 0) ∧
    (m = 0 → active.advance dt (active.init m (some thr) pos vel acc) = none) := by
  refine ⟨rfl, rfl, rfl, fun hm => ?_⟩
  simp [active.advance, active.init, hm]

/-- Witness for the amended C8 at `mass = 0`, mismatched thrust `[1, 2, 3]`. -/
theorem active_init_stores_verbatim_witness :
    (active.init 0 (some [1, 2, 3]) [5, 6] [0, 0] [0, 0]).mass = 0 ∧
    (active.init 0 (some [1, 2, 3]) [5, 6] [0, 0] [0, 0]).thrust = [1, 2, 3] ∧
    (active.init 0 none [5, 6] [0, 0] [0, 0]).thrust = ([0, 0] : List ℚ).map (fun _ => 0) ∧
    active.advance 1 (active.init 0 (some [1, 2, 3]) [5, 6] [0, 0] [0, 0]) = none := by
  obtain ⟨h1, h2, h3, h4⟩ := active_init_stores_verbatim 0 [1, 2, 3] [5, 6] [0, 0] [0, 0] 1
  exact ⟨h1, h2, h3, h4 rfl⟩

/-- Counterexample to claim C9 as stated: the exhaust flame glyph is not a
function of the wall time alone — `random.choice` consults the global random
stream on every read, and for the rocket's flame set both index draws `0`
and `1` are possible at the same instant, yielding different glyphs. -/
theorem exhaust_thing_rng_dependent :
    exhaust.thing ['|', '!'] 0 ≠ exhaust.thing ['|', '!'] 1 := by
  decide

/-- Claim C9 (amended): the fragment's rotating glyph is a deterministic
pure function of the wall time and the fixed per-sprite rotation speed:
two airborne fragments with the same speed resolve to the same glyph at the
same time, whatever their other state; the exhaust flame glyph is excluded,
as it also depends on a fresh global random draw at each read. -/
theorem fragment_rotating_glyph_pure (t : ℚ) (f1 f2 : fragment) (py1 py2 : ℚ)
    (hs : f1.speed = f2.speed)
    (h1 : f1.position[Y]? = some py1) (h1a : ¬ py1 ≤ 0)
    (h2 : f2.position[Y]? = some py2) (h2a : ¬ py2 ≤ 0) :
    fragment.thing t f1 = fragment.thing t f2 := by
  simp [fragment.thing, h1, h2, h1a, h2a, hs]

/-- Airborne fragment for the C9 witness. -/
def fragAW : fragment :=
  { position := [0, 5], velocity := [0, 0], acceleration := [0, 0],
    glyph := 'x', speed := 3, timeout := none }

/-- Another airborne fragment with the same rotation speed but different
position, velocity, glyph and timeout, for the C9 witness. -/
def fragBW : fragment :=
  { position := [7, 2], velocity := [1, 1], acceleration := [0, G],
    glyph := '@', speed := 3, timeout := some 5 }

/-- Witness for the amended C9: `fragAW` and `fragBW` resolve identically. -/
theorem fragment_rotating_glyph_pure_witness :
    fragment.thing 1 fragAW = fragment.thing 1 fragBW :=
  fragment_rotating_glyph_pure 1 fragAW fragBW 5 2 rfl rfl (by norm_num)
    rfl (by norm_num)

end Rocket1
